import Mathlib

/-!
Oscyloskop: an ESP32 ADC-over-I2S sampler that streams frames over UART.

A shallow embedding of `ZaawansowanyOscyloskop/src/main.cpp` and the properties of
its framing (`loop`), its start-up sequence (`setup`, `setupI2S`) and its sizing
constants.

Modelling conventions.

* The target is the ESP32 (32-bit, little-endian): `int` is a 32-bit two's
  complement integer, `size_t` a 32-bit unsigned integer, `sizeof(uint16_t) = 2`.
  Machine integers are `Nat`/`Int` with explicit reduction modulo `2^32`.
* The static array `buffer` is a function from its `READ_LEN` indices to 16-bit
  values; its object representation (what `(uint8_t*)buffer` addresses) is the
  little-endian byte view of those values.
* Library calls (`i2s_*`, `pinMode`, `delay`, `Serial.*`) are not part of the
  program. Each call is recorded, in program order, in `State.calls`; the bytes
  handed to `Serial` are appended to `State.serial`. What `i2s_read` stores (the
  new buffer contents and `bytesRead`) is an input of `loop`.
-/

namespace Oscyloskop

/-! ## Machine integers -/

/-- Conversion of a value to `size_t` (32-bit unsigned): reduction modulo `2^32`. -/
def toSizeT (i : Int) : Nat := (i % 4294967296).toNat

/-- Conversion of an unsigned 32-bit value to `int` (32-bit two's complement). -/
def toInt32 (n : Nat) : Int :=
  if n % 4294967296 < 2147483648 then ((n % 4294967296 : Nat) : Int)
  else ((n % 4294967296 : Nat) : Int) - 4294967296

/-- The value of `sizeof(uint16_t)`. -/
def sizeof_uint16_t : Nat := 2

/-- A `uint16_t` value. -/
abbrev Sample := Fin 65536

/-! ## Configuration (lines 5-10) -/

/-- I2S ports of the driver; `I2S_NUM_0` is the only one the program names. -/
inductive i2s_port_t where
  | I2S_NUM_0
  | I2S_NUM_1
  deriving DecidableEq, Repr

/-- ADC units. -/
inductive adc_unit_t where
  | ADC_UNIT_1
  | ADC_UNIT_2
  deriving DecidableEq, Repr

/-- Channels of ADC unit 1. -/
inductive adc1_channel_t where
  | ADC1_CHANNEL_0
  | ADC1_CHANNEL_1
  | ADC1_CHANNEL_2
  | ADC1_CHANNEL_3
  | ADC1_CHANNEL_4
  | ADC1_CHANNEL_5
  | ADC1_CHANNEL_6
  | ADC1_CHANNEL_7
  deriving DecidableEq, Repr

/-- Line 5: `#define I2S_NUM I2S_NUM_0`. -/
def I2S_NUM : i2s_port_t := .I2S_NUM_0

/-- Line 6: `#define SAMPLE_RATE 800000`. -/
def SAMPLE_RATE : Nat := 800000

/-- Line 7: `#define ADC_CHANNEL ADC1_CHANNEL_0`. -/
def ADC_CHANNEL : adc1_channel_t := .ADC1_CHANNEL_0

/-- Line 8: `#define READ_LEN 800 * 64`, as used for the array bound in
`buffer[READ_LEN]` (line 10). -/
def READ_LEN : Nat := 800 * 64

/-- Line 56: the third argument of `i2s_read`, `READ_LEN * sizeof(uint16_t)`, with
the macro body spliced in textually: `800 * 64 * sizeof(uint16_t)`, evaluated in
`size_t`. -/
def i2s_read_size : Nat := (800 * 64 * sizeof_uint16_t) % 4294967296

/-! ### Textual macro expansion

The preprocessor splices the tokens of the macro body without parentheses. The
token-level model below is used to check that `READ_LEN` and `i2s_read_size`
above are what the compiler computes. -/

/-- Tokens of the two expressions that mention `READ_LEN`. -/
inductive Tok where
  | num (n : Nat)
  | star
  | sizeofU16
  | ident (name : String)
  deriving DecidableEq, Repr

/-- Line 8: the replacement list of the macro `READ_LEN`. -/
def READ_LEN_body : List Tok := [.num 800, .star, .num 64]

/-- Macro expansion: every occurrence of the identifier `READ_LEN` is replaced by
the macro body, token for token. -/
def expand (ts : List Tok) : List Tok :=
  ts.flatMap fun t => if t = .ident "READ_LEN" then READ_LEN_body else [t]

/-- Value of an operand token. -/
def operand : Tok → Option Nat
  | .num n => some n
  | .sizeofU16 => some sizeof_uint16_t
  | _ => none

/-- Left-to-right evaluation of `acc * x * y * ...` (C's `*` is left associative),
reduced modulo `2^32`. -/
def evalMulFrom (acc : Nat) : List Tok → Option Nat
  | [] => some acc
  | .star :: t :: rest =>
    match operand t with
    | some v => evalMulFrom ((acc * v) % 4294967296) rest
    | none => none
  | _ => none

/-- Value of a multiplicative expression given as a token list. -/
def evalMul : List Tok → Option Nat
  | t :: rest =>
    match operand t with
    | some v => evalMulFrom v rest
    | none => none
  | [] => none

/-- Line 10: the tokens of the array bound in `buffer[READ_LEN]`. -/
def bufferBoundTokens : List Tok := [.ident "READ_LEN"]

/-- Line 56: the tokens of `READ_LEN * sizeof(uint16_t)`. -/
def readSizeTokens : List Tok := [.ident "READ_LEN", .star, .sizeofU16]

/-! ## State -/

/-- Line 10: `static uint16_t buffer[READ_LEN]`. -/
abbrev Buffer := Fin READ_LEN → Sample

/-- Flags of `i2s_mode_t` that the program combines with `|`. -/
inductive i2s_mode_t where
  | I2S_MODE_MASTER
  | I2S_MODE_RX
  | I2S_MODE_ADC_BUILT_IN
  deriving DecidableEq, Repr

/-- Values of `i2s_bits_per_sample_t` named by the program. -/
inductive i2s_bits_per_sample_t where
  | I2S_BITS_PER_SAMPLE_16BIT
  deriving DecidableEq, Repr

/-- Values of `i2s_channel_fmt_t` named by the program. -/
inductive i2s_channel_fmt_t where
  | I2S_CHANNEL_FMT_ONLY_LEFT
  deriving DecidableEq, Repr

/-- Values of `i2s_comm_format_t` named by the program. -/
inductive i2s_comm_format_t where
  | I2S_COMM_FORMAT_STAND_I2S
  deriving DecidableEq, Repr

/-- The fields of `i2s_config_t` that `setupI2S` initialises (lines 15-27). -/
structure i2s_config_t where
  mode : List i2s_mode_t
  sample_rate : Nat
  bits_per_sample : i2s_bits_per_sample_t
  channel_format : i2s_channel_fmt_t
  communication_format : i2s_comm_format_t
  intr_alloc_flags : Nat
  dma_buf_count : Nat
  dma_buf_len : Nat
  use_apll : Bool
  tx_desc_auto_clear : Bool
  fixed_mclk : Nat
  deriving DecidableEq, Repr

/-- Pin modes. -/
inductive PinMode where
  | INPUT
  | OUTPUT
  deriving DecidableEq, Repr

/-- A call into the Arduino core or the I2S driver, with its arguments. -/
inductive HwCall where
  | Serial_begin (baud : Nat)
  | Serial_println (text : String)
  | Serial_write (size : Nat)
  | pinMode (pin : Nat) (mode : PinMode)
  | delay (ms : Nat)
  | i2s_driver_install (port : i2s_port_t) (config : i2s_config_t) (queueSize : Nat)
  | i2s_set_adc_mode (adcUnit : adc_unit_t) (channel : adc1_channel_t)
  | i2s_adc_enable (port : i2s_port_t)
  | i2s_read (port : i2s_port_t) (size : Nat)
  deriving DecidableEq, Repr

/-- The observable state of the program: the global `buffer`, the bytes written so
far to `Serial` (oldest first), and the library calls made so far (oldest first). -/
structure State where
  buffer : Buffer
  serial : List Nat
  calls : List HwCall

/-- The state at power-on: `buffer` is zero-initialised static storage, nothing has
been written or called. -/
def powerOn : State := { buffer := fun _ => 0, serial := [], calls := [] }

/-! ## Memory objects and `Serial` -/

/-- The object representation of a C object: its size in bytes and the byte at each
offset below the size. -/
structure MemObj where
  size : Nat
  byte : Nat → Nat

/-- Object representation of a `uint16_t` variable holding `v` (little-endian). -/
def u16Obj (v : Nat) : MemObj :=
  { size := sizeof_uint16_t
    byte := fun k => if k = 0 then v % 65536 % 256 else v % 65536 / 256 }

/-- Object representation of `buffer`: the byte at offset `k` belongs to element
`k / 2` and is its low byte when `k` is even, its high byte when `k` is odd. -/
def bufferObj (b : Buffer) : MemObj :=
  { size := READ_LEN * sizeof_uint16_t
    byte := fun k =>
      if h : k / 2 < READ_LEN then
        if k % 2 = 0 then (b ⟨k / 2, h⟩).val % 256 else (b ⟨k / 2, h⟩).val / 256
      else 0 }

/-- The bytes at offsets `0 .. size - 1` of an object. -/
def readBytes (obj : MemObj) (size : Nat) : List Nat :=
  (List.range size).map obj.byte

/-- A call `Serial.write(ptr, size)` where `ptr` points to the start of `obj`: the
first `size` bytes of the object are appended to the UART output. Reading past the
end of the object has no defined result (`none`). -/
def Serial_write (s : State) (obj : MemObj) (size : Nat) : Option State :=
  if size ≤ obj.size then
    some { s with serial := s.serial ++ readBytes obj size
                  calls := s.calls ++ [.Serial_write size] }
  else none

/-- A call `Serial.println(text)`: the characters of `text` followed by CR LF (the
Arduino core's line terminator) are appended to the UART output. -/
def Serial_println (s : State) (text : String) : State :=
  { s with serial := s.serial ++ (text.toList.map Char.toNat ++ [13, 10])
           calls := s.calls ++ [.Serial_println text] }

/-- A library call with no effect on `buffer` or on the UART output. -/
def call (s : State) (c : HwCall) : State :=
  { s with calls := s.calls ++ [c] }

/-! ## The program -/

/-- Lines 12-33: `setupI2S()`. The return values of the three driver calls are
discarded by the program. -/
def setupI2S (s : State) : State :=
  let i2s_config : i2s_config_t :=
    { mode := [.I2S_MODE_MASTER, .I2S_MODE_RX, .I2S_MODE_ADC_BUILT_IN]
      sample_rate := SAMPLE_RATE
      bits_per_sample := .I2S_BITS_PER_SAMPLE_16BIT
      channel_format := .I2S_CHANNEL_FMT_ONLY_LEFT
      communication_format := .I2S_COMM_FORMAT_STAND_I2S
      intr_alloc_flags := 0
      dma_buf_count := 64
      dma_buf_len := 800
      use_apll := false
      tx_desc_auto_clear := false
      fixed_mclk := 0 }
  let s := call s (.i2s_driver_install I2S_NUM i2s_config 0)
  let s := call s (.i2s_set_adc_mode .ADC_UNIT_1 ADC_CHANNEL)
  call s (.i2s_adc_enable I2S_NUM)

/-- Lines 35-49: `setup()`. -/
def setup (s : State) : State :=
  let s := call s (.Serial_begin 921600)
  let s := Serial_println s "ADC I2S test"
  let s := call s (.pinMode 35 .INPUT)
  let s := call s (.pinMode 39 .INPUT)
  let s := call s (.pinMode 34 .INPUT)
  let s := call s (.pinMode 32 .INPUT)
  let s := call s (.pinMode 33 .INPUT)
  let s := call s (.pinMode 25 .INPUT)
  let s := call s (.pinMode 27 .INPUT)
  let s := call s (.pinMode 14 .INPUT)
  let s := call s (.pinMode 12 .INPUT)
  let s := call s (.pinMode 13 .INPUT)
  let s := call s (.pinMode 4 .INPUT)
  let s := call s (.pinMode 0 .INPUT)
  let s := call s (.pinMode 2 .INPUT)
  let s := call s (.pinMode 15 .INPUT)
  let s := call s (.pinMode 26 .INPUT)
  let s := call s (.delay 1000)
  setupI2S s

/-- What one call of `i2s_read` (line 56) leaves behind: the contents of `buffer`
when the call returns and the value it stored in `bytesRead`. -/
structure I2sRead where
  buffer : Buffer
  bytesRead : Nat

/-- Line 58: `int numSamples = bytesRead / sizeof(uint16_t);` (division in `size_t`,
result converted to `int`). -/
def numSamples (bytesRead : Nat) : Int :=
  toInt32 ((bytesRead % 4294967296) / sizeof_uint16_t)

/-- Line 67: the second argument `numSamples * sizeof(uint16_t)` (`int` times
`size_t`, computed in `size_t`). -/
def payloadSize (bytesRead : Nat) : Nat :=
  (toSizeT (numSamples bytesRead) * sizeof_uint16_t) % 4294967296

/-- Lines 51-68: one iteration of `loop()`, given what `i2s_read` stored. -/
def loop (rd : I2sRead) (s : State) : Option State :=
  let s := call { s with buffer := rd.buffer } (.i2s_read I2S_NUM i2s_read_size)
  let header : Nat := 0xA5A5
  (Serial_write s (u16Obj header) 2).bind fun s =>
    Serial_write s (bufferObj s.buffer) (payloadSize rd.bytesRead)

/-- Successive iterations of `loop()`, one per result of `i2s_read`, oldest first. -/
def runLoops : List I2sRead → State → Option State
  | [], s => some s
  | rd :: rds, s => (loop rd s).bind (runLoops rds)

/-! ## Observations on executions -/

/-- The configuration passed to the first `i2s_driver_install` in a call sequence. -/
def installedConfig : List HwCall → Option i2s_config_t
  | [] => none
  | .i2s_driver_install _ cfg _ :: _ => some cfg
  | _ :: rest => installedConfig rest

/-- Calls that touch the acquisition peripheral (the I2S driver and its ADC). -/
def isI2sCall : HwCall → Bool
  | .i2s_driver_install _ _ _ => true
  | .i2s_set_adc_mode _ _ => true
  | .i2s_adc_enable _ => true
  | .i2s_read _ _ => true
  | _ => false

/-- Calls `pinMode(pin, INPUT)`. -/
def isPinInput : HwCall → Bool
  | .pinMode _ .INPUT => true
  | _ => false

/-- Calls `delay(ms)`. -/
def isDelay : HwCall → Bool
  | .delay _ => true
  | _ => false

/-- The pin of a `pinMode` call. -/
def pinOf : HwCall → Option Nat
  | .pinMode pin _ => some pin
  | _ => none

/-- The offsets in the UART output at which successive iterations of `loop()` begin
to write (where each iteration puts its header), oldest first. -/
def markerPositions : List I2sRead → State → List Nat
  | [], _ => []
  | rd :: rds, s =>
    s.serial.length ::
      (match loop rd s with
       | some s1 => markerPositions rds s1
       | none => [])

/-- The result of an `i2s_read` that filled the whole request: `bytesRead` equals
the requested size. -/
def fullRead (b : Buffer) : I2sRead := { buffer := b, bytesRead := i2s_read_size }

/-! ## Wire format, as the specification words it -/

/-- The Sync Marker on the wire: the two bytes `0xA5 0xA5`. -/
def syncMarker : List Nat := [0xA5, 0xA5]

/-- A sample in native (little-endian) byte order: low byte, then high byte. -/
def leBytes (v : Sample) : List Nat := [v.val % 256, v.val / 256]

/-- The samples of a buffer, in buffer order. -/
def samplesOf (b : Buffer) : List Sample := List.ofFn b

/-- One frame as the specification describes it: the marker, then the first
`floor (bytesRead / 2)` samples of the buffer, each as its two bytes. -/
def frameOf (rd : I2sRead) : List Nat :=
  syncMarker ++ ((samplesOf rd.buffer).take (rd.bytesRead / 2)).flatMap leBytes

/-- The wire image of a sequence of frames: their in-order concatenation. -/
def wireOf (rds : List I2sRead) : List Nat := rds.flatMap frameOf

/-! ## The receiver, as the specification words it

The repository contains no receiver. The decoder below follows the specification:
scan forward for the next marker, slice the `2 * N` bytes after it, read them as `N`
samples in native byte order, and repeat from the byte after the slice. -/

/-- The offset of the first position at which the two bytes `0xA5 0xA5` occur next to
each other, if there is one. -/
def findMarker : List Nat → Option Nat
  | a :: b :: rest =>
    if a = 0xA5 ∧ b = 0xA5 then some 0 else (findMarker (b :: rest)).map (· + 1)
  | _ => none

/-- Pairs of bytes read as 16-bit values, low byte first. -/
def toSamples : List Nat → List Nat
  | lo :: hi :: rest => (lo + 256 * hi) :: toSamples rest
  | _ => []

/-- The decoder with an explicit bound on the number of frames it extracts. An
incomplete slice at the end of the stream is not a frame. -/
def decodeFuel (N : Nat) : Nat → List Nat → List (List Nat)
  | 0, _ => []
  | fuel + 1, bs =>
    match findMarker bs with
    | none => []
    | some j =>
      let rest := bs.drop (j + 2)
      if rest.length < 2 * N then []
      else toSamples (rest.take (2 * N)) :: decodeFuel N fuel (rest.drop (2 * N))

/-- The decoder: every frame takes at least one byte, so the length of the stream
bounds the number of frames. -/
def decode (N : Nat) (bs : List Nat) : List (List Nat) := decodeFuel N bs.length bs

/-- The bytes an execution added to the UART output of the state it started from. -/
def emitted (s st : State) : List Nat := st.serial.drop s.serial.length

/-- The samples one iteration sends: the first `floor (bytesRead / 2)` samples of the
buffer, in buffer order. -/
def sentSamples (rd : I2sRead) : List Sample :=
  (samplesOf rd.buffer).take (rd.bytesRead / 2)

/-- The payload of a frame does not produce the marker pattern together with the
marker of a following frame: it has a last sample (it is not empty) and the high byte
of that sample is not `0xA5`. -/
def tailClean (vs : List Sample) : Prop :=
  ∃ v ∈ vs.getLast?, v.val / 256 ≠ 0xA5

/-- The text that `setup()` prints, as bytes: `ADC I2S test` and CR LF. -/
def bannerBytes : List Nat := "ADC I2S test".toList.map Char.toNat ++ [13, 10]

end Oscyloskop

namespace Oscyloskop

/-! ## Arithmetic of `loop()` -/

theorem numSamples_eq (r : Nat) (h : r < 4294967296) : numSamples r = ((r / 2 : Nat) : Int) := by
  unfold numSamples toInt32 sizeof_uint16_t
  rw [Nat.mod_eq_of_lt h]
  have h1 : r / 2 % 4294967296 = r / 2 := Nat.mod_eq_of_lt (by omega)
  rw [h1, if_pos (by omega)]

theorem payloadSize_eq (r : Nat) (h : r < 4294967296) : payloadSize r = 2 * (r / 2) := by
  unfold payloadSize
  rw [numSamples_eq r h]
  unfold toSizeT sizeof_uint16_t
  omega

theorem READ_LEN_eq : READ_LEN = 51200 := by decide

theorem i2s_read_size_eq : i2s_read_size = 102400 := by decide

/-! ## The bytes of one iteration -/

theorem bufferObj_size (b : Buffer) : (bufferObj b).size = 102400 := by
  show READ_LEN * sizeof_uint16_t = 102400
  decide

theorem bufferObj_byte_even (b : Buffer) (i : Fin READ_LEN) :
    (bufferObj b).byte (2 * i.val) = (b i).val % 256 := by
  have hk : 2 * i.val / 2 = i.val := by omega
  have hm : 2 * i.val % 2 = 0 := by omega
  have hlt : 2 * i.val / 2 < READ_LEN := by rw [hk]; exact i.isLt
  have hi : (⟨2 * i.val / 2, hlt⟩ : Fin READ_LEN) = i := Fin.ext hk
  show (if h : 2 * i.val / 2 < READ_LEN then
      if 2 * i.val % 2 = 0 then (b ⟨2 * i.val / 2, h⟩).val % 256
      else (b ⟨2 * i.val / 2, h⟩).val / 256 else 0) = (b i).val % 256
  rw [dif_pos hlt, if_pos hm, hi]

theorem bufferObj_byte_odd (b : Buffer) (i : Fin READ_LEN) :
    (bufferObj b).byte (2 * i.val + 1) = (b i).val / 256 := by
  have hk : (2 * i.val + 1) / 2 = i.val := by omega
  have hm : ¬ (2 * i.val + 1) % 2 = 0 := by omega
  have hlt : (2 * i.val + 1) / 2 < READ_LEN := by rw [hk]; exact i.isLt
  have hi : (⟨(2 * i.val + 1) / 2, hlt⟩ : Fin READ_LEN) = i := Fin.ext hk
  show (if h : (2 * i.val + 1) / 2 < READ_LEN then
      if (2 * i.val + 1) % 2 = 0 then (b ⟨(2 * i.val + 1) / 2, h⟩).val % 256
      else (b ⟨(2 * i.val + 1) / 2, h⟩).val / 256 else 0) = (b i).val / 256
  rw [dif_pos hlt, if_neg hm, hi]

theorem readBytes_length (obj : MemObj) (n : Nat) : (readBytes obj n).length = n := by
  simp [readBytes]

theorem readBytes_succ (obj : MemObj) (n : Nat) :
    readBytes obj (n + 1) = readBytes obj n ++ [obj.byte n] := by
  simp [readBytes, List.range_succ]

/-- The first `2 * n` bytes of the buffer object are the first `n` samples, each
as its low byte followed by its high byte. -/
theorem readBytes_bufferObj (b : Buffer) (n : Nat) (h : n ≤ READ_LEN) :
    readBytes (bufferObj b) (2 * n) = ((samplesOf b).take n).flatMap leBytes := by
  induction n with
  | zero => simp [readBytes]
  | succ n ih =>
    have hn : n < READ_LEN := h
    have e : 2 * (n + 1) = 2 * n + 1 + 1 := by ring
    have hget : (samplesOf b)[n]? = some (b ⟨n, hn⟩) := by
      rw [samplesOf, List.getElem?_ofFn, List.ofFnNthVal, dif_pos hn]
    rw [e, readBytes_succ, readBytes_succ, ih (Nat.le_of_lt hn), List.take_succ, hget]
    have h0 := bufferObj_byte_even b ⟨n, hn⟩
    have h1 := bufferObj_byte_odd b ⟨n, hn⟩
    simp only [] at h0 h1
    simp [h0, h1, leBytes]

theorem readBytes_header : readBytes (u16Obj 0xA5A5) 2 = syncMarker := by decide

/-- One iteration of `loop()` on a read of at most the requested size: the state
it returns, read off the code. -/
theorem loop_eq (rd : I2sRead) (s : State) (h : rd.bytesRead ≤ 102400) :
    loop rd s = some
      { buffer := rd.buffer
        serial := s.serial ++
          (syncMarker ++ readBytes (bufferObj rd.buffer) (2 * (rd.bytesRead / 2)))
        calls := s.calls ++
          [.i2s_read I2S_NUM i2s_read_size, .Serial_write 2,
           .Serial_write (2 * (rd.bytesRead / 2))] } := by
  have hp : payloadSize rd.bytesRead = 2 * (rd.bytesRead / 2) :=
    payloadSize_eq _ (by omega)
  have hsz : 2 * (rd.bytesRead / 2) ≤ 102400 := by omega
  have h2 : (2 : Nat) ≤ (u16Obj 0xA5A5).size := by decide
  simp [loop, Serial_write, call, hp, bufferObj_size, hsz, h2, readBytes_header]

/-- For a read of at most the requested size, the bytes an iteration writes are the
frame the specification describes. -/
theorem frame_bytes_eq (rd : I2sRead) (h : rd.bytesRead ≤ 102400) :
    syncMarker ++ readBytes (bufferObj rd.buffer) (2 * (rd.bytesRead / 2)) = frameOf rd := by
  have hn : rd.bytesRead / 2 ≤ READ_LEN := by
    have := READ_LEN_eq
    omega
  rw [frameOf, readBytes_bufferObj rd.buffer _ hn]

theorem samplesOf_length (b : Buffer) : (samplesOf b).length = READ_LEN := by
  rw [samplesOf, List.length_ofFn]

theorem flatMap_leBytes_length (l : List Sample) : (l.flatMap leBytes).length = 2 * l.length := by
  induction l with
  | nil => rfl
  | cons a l ih =>
    rw [List.flatMap_cons, List.length_append, ih, List.length_cons]
    show 2 + 2 * l.length = 2 * (l.length + 1)
    omega

/-- Successive iterations on reads of at most the requested size all return, and
the UART output grows by the concatenation of their frames. -/
theorem runLoops_serial (rds : List I2sRead) (s : State)
    (h : ∀ rd ∈ rds, rd.bytesRead ≤ 102400) :
    ∃ st, runLoops rds s = some st ∧ st.serial = s.serial ++ wireOf rds := by
  induction rds generalizing s with
  | nil => exact ⟨s, rfl, by simp [wireOf]⟩
  | cons rd rds ih =>
    have hrd : rd.bytesRead ≤ 102400 := h rd (List.mem_cons_self _ _)
    obtain ⟨st, hst, hser⟩ := ih _ (fun x hx => h x (List.mem_cons_of_mem _ hx))
    refine ⟨st, ?_, ?_⟩
    · rw [runLoops, loop_eq rd s hrd]
      exact hst
    · rw [hser, frame_bytes_eq rd hrd]
      simp [wireOf]

/-! ## Claims -/

/-- C1: for every finite sequence of capture results whose byte counts are at most
102400, the successive iterations of `loop()` all return and the bytes they write to
the serial output are exactly the in-order concatenation, frame by frame, of the two
marker bytes `0xA5 0xA5` followed by the first `floor (r / 2)` samples of the buffer,
each sample as its low byte then its high byte, in buffer order. -/
theorem C1_frames_in_capture_order (rds : List I2sRead) (s : State)
    (h : ∀ rd ∈ rds, rd.bytesRead ≤ 102400) :
    ∃ st, runLoops rds s = some st ∧
      st.serial = s.serial ++
        rds.flatMap (fun rd =>
          [0xA5, 0xA5] ++
            ((samplesOf rd.buffer).take (rd.bytesRead / 2)).flatMap
              (fun v => [v.val % 256, v.val / 256])) :=
  runLoops_serial rds s h

/-- Witness for C1: two captures, one of two samples and one of one sample and an
odd trailing byte. -/
theorem C1_frames_in_capture_order_witness :
    ∃ st, runLoops [⟨fun _ => 0x1234, 4⟩, ⟨fun _ => 0xBEEF, 3⟩] powerOn = some st ∧
      st.serial = powerOn.serial ++
        [(⟨fun _ => 0x1234, 4⟩ : I2sRead), ⟨fun _ => 0xBEEF, 3⟩].flatMap (fun rd =>
          [0xA5, 0xA5] ++
            ((samplesOf rd.buffer).take (rd.bytesRead / 2)).flatMap
              (fun v => [v.val % 256, v.val / 256])) :=
  C1_frames_in_capture_order [⟨fun _ => 0x1234, 4⟩, ⟨fun _ => 0xBEEF, 3⟩] powerOn
    (by
      intro rd hrd
      simp only [List.mem_cons, List.mem_singleton, List.not_mem_nil, or_false] at hrd
      rcases hrd with rfl | rfl <;> decide)

/-- C2: for every buffer content, when `i2s_read` reports the full requested length
(102400 bytes), one iteration of `loop()` returns and appends exactly 102402 bytes to
the serial output: `0xA5`, `0xA5`, then a payload of 102400 bytes, which is the
whole buffer (all 51200 samples, low byte first). -/
theorem C2_full_frame_is_102402_bytes (b : Buffer) (s : State) :
    ∃ st payload, loop ⟨b, 102400⟩ s = some st ∧
      st.serial = s.serial ++ (0xA5 :: 0xA5 :: payload) ∧
      payload.length = 102400 ∧
      payload = (samplesOf b).flatMap leBytes ∧
      st.serial.length = s.serial.length + 102402 := by
  have e : 2 * (102400 / 2) = 102400 := by norm_num
  have hl := loop_eq ⟨b, 102400⟩ s (Nat.le_refl _)
  have hb := readBytes_bufferObj b (102400 / 2) (by
    have h3 := READ_LEN_eq
    omega)
  have htake : (samplesOf b).take (102400 / 2) = samplesOf b :=
    List.take_of_length_le (by
      have h1 := samplesOf_length b
      have h2 := READ_LEN_eq
      omega)
  rw [htake] at hb
  simp only [e] at hl hb
  have hlen : (readBytes (bufferObj b) 102400).length = 102400 := readBytes_length _ _
  refine ⟨_, readBytes (bufferObj b) 102400, hl, ?_, hlen, hb, ?_⟩
  · simp only [syncMarker, List.cons_append, List.nil_append]
  · simp only [syncMarker, List.length_append, List.length_cons, List.length_nil, hlen]

/-- C5: after textual expansion of the unparenthesised macro body `800 * 64`, the
length `READ_LEN * sizeof(uint16_t)` requested from `i2s_read` evaluates to 102400,
the array bound of `buffer[READ_LEN]` evaluates to 51200, and the requested length is
exactly the size in bytes of the buffer (51200 elements of 2 bytes). -/
theorem C5_request_is_buffer_size :
    evalMul (expand readSizeTokens) = some i2s_read_size ∧
    evalMul (expand bufferBoundTokens) = some READ_LEN ∧
    READ_LEN = 51200 ∧
    i2s_read_size = 102400 ∧
    i2s_read_size = READ_LEN * sizeof_uint16_t ∧
    (∀ b : Buffer, (bufferObj b).size = i2s_read_size) := by
  refine ⟨by decide, by decide, by decide, by decide, by decide, ?_⟩
  intro b
  rw [bufferObj_size, i2s_read_size_eq]

/-- C6: for every read with `0 ≤ bytesRead < 102400`, `loop()` returns having made
exactly one `i2s_read` call and two `Serial.write` calls; it appends the two marker
bytes and then a payload of exactly `2 * floor (bytesRead / 2)` bytes (the first
`floor (bytesRead / 2)` samples); for `bytesRead = 0` it appends the two marker bytes
and nothing else. -/
theorem C6_short_read_sends_truncated_frame (rd : I2sRead) (s : State)
    (h : rd.bytesRead < 102400) :
    ∃ st payload, loop rd s = some st ∧
      st.serial = s.serial ++ [0xA5, 0xA5] ++ payload ∧
      payload.length = 2 * (rd.bytesRead / 2) ∧
      payload = ((samplesOf rd.buffer).take (rd.bytesRead / 2)).flatMap leBytes ∧
      st.calls = s.calls ++
        [.i2s_read I2S_NUM i2s_read_size, .Serial_write 2,
         .Serial_write (2 * (rd.bytesRead / 2))] ∧
      (rd.bytesRead = 0 → st.serial = s.serial ++ [0xA5, 0xA5]) := by
  have hle : rd.bytesRead ≤ 102400 := Nat.le_of_lt h
  have hn : rd.bytesRead / 2 ≤ READ_LEN := by
    have := READ_LEN_eq
    omega
  refine ⟨_, readBytes (bufferObj rd.buffer) (2 * (rd.bytesRead / 2)), loop_eq rd s hle,
    ?_, readBytes_length _ _, readBytes_bufferObj rd.buffer _ hn, rfl, ?_⟩
  · simp only [syncMarker, List.append_assoc]
  · intro h0
    simp only [h0, syncMarker, readBytes, Nat.zero_div, Nat.mul_zero, List.range_zero,
      List.map_nil, List.append_nil]

/-- Witness for C6: a read that returned 5 bytes. -/
theorem C6_short_read_sends_truncated_frame_witness :
    ∃ st payload, loop ⟨fun _ => 0x0102, 5⟩ powerOn = some st ∧
      st.serial = powerOn.serial ++ [0xA5, 0xA5] ++ payload ∧
      payload.length = 2 * ((⟨fun _ => 0x0102, 5⟩ : I2sRead).bytesRead / 2) ∧
      payload = ((samplesOf (⟨fun _ => 0x0102, 5⟩ : I2sRead).buffer).take
        ((⟨fun _ => 0x0102, 5⟩ : I2sRead).bytesRead / 2)).flatMap leBytes ∧
      st.calls = powerOn.calls ++
        [.i2s_read I2S_NUM i2s_read_size, .Serial_write 2,
         .Serial_write (2 * ((⟨fun _ => 0x0102, 5⟩ : I2sRead).bytesRead / 2))] ∧
      ((⟨fun _ => 0x0102, 5⟩ : I2sRead).bytesRead = 0 →
        st.serial = powerOn.serial ++ [0xA5, 0xA5]) :=
  C6_short_read_sends_truncated_frame ⟨fun _ => 0x0102, 5⟩ powerOn (by decide)

/-- C7: the configuration that `setup()` (through `setupI2S()`) installs has
`dma_buf_count = 64` and `dma_buf_len = 800`, and their product is at least the frame
length requested per read, `READ_LEN = 51200` samples, which `loop()` requests as
`READ_LEN * sizeof(uint16_t) = 102400` bytes. -/
theorem C7_dma_capacity_covers_frame :
    ∃ cfg, installedConfig (setup powerOn).calls = some cfg ∧
      cfg.dma_buf_count = 64 ∧ cfg.dma_buf_len = 800 ∧
      READ_LEN ≤ cfg.dma_buf_count * cfg.dma_buf_len ∧
      i2s_read_size = READ_LEN * sizeof_uint16_t ∧
      i2s_read_size ≤ cfg.dma_buf_count * cfg.dma_buf_len * sizeof_uint16_t :=
  ⟨_, rfl, rfl, rfl, by decide, by decide, by decide⟩

/-- C8: in the calls made by `setup()` there are exactly 15 `pinMode` calls, all with
mode `INPUT` and on 15 distinct pins, and one `delay(1000)`; every one of them comes
before every call to the I2S driver; and the I2S calls are, in this order,
`i2s_driver_install`, `i2s_set_adc_mode(ADC_UNIT_1, ADC1_CHANNEL_0)`,
`i2s_adc_enable`. -/
theorem C8_pins_and_delay_before_i2s :
    ((setup powerOn).calls.filter isPinInput).length = 15 ∧
    (setup powerOn).calls.filterMap pinOf =
      [35, 39, 34, 32, 33, 25, 27, 14, 12, 13, 4, 0, 2, 15, 26] ∧
    ((setup powerOn).calls.filterMap pinOf).Nodup ∧
    (setup powerOn).calls.filter isDelay = [.delay 1000] ∧
    (∀ i j : Fin (setup powerOn).calls.length,
      (isPinInput ((setup powerOn).calls.get i) = true ∨
        isDelay ((setup powerOn).calls.get i) = true) →
      isI2sCall ((setup powerOn).calls.get j) = true → i < j) ∧
    (∃ cfg, (setup powerOn).calls.filter isI2sCall =
      [.i2s_driver_install .I2S_NUM_0 cfg 0,
       .i2s_set_adc_mode .ADC_UNIT_1 .ADC1_CHANNEL_0,
       .i2s_adc_enable .I2S_NUM_0]) := by
  refine ⟨by decide, by decide, by decide, by decide, by decide, ⟨_, rfl⟩⟩

/-- C10: for every `bytesRead ≤ 102400`, `numSamples` is the exact quotient
`bytesRead / 2` (no wrap-around in the conversion to 32-bit `int`), lies in the `int`
range and is at most 51200; the payload byte count `numSamples * 2` is computed
without wrap-around, is at most `bytesRead` and at most 102400 (the size of the
buffer object), so every byte offset the payload write reads lies inside the buffer
and below `bytesRead`; for odd `bytesRead` exactly the trailing byte is dropped. -/
theorem C10_payload_within_buffer (r : Nat) (h : r ≤ 102400) :
    numSamples r = ((r / 2 : Nat) : Int) ∧
    (-2147483648 ≤ numSamples r ∧ numSamples r ≤ 2147483647) ∧
    numSamples r ≤ 51200 ∧
    payloadSize r = 2 * (r / 2) ∧
    payloadSize r ≤ r ∧
    payloadSize r ≤ 102400 ∧
    (∀ b : Buffer, payloadSize r ≤ (bufferObj b).size) ∧
    (∀ k, k < payloadSize r → k / 2 < READ_LEN ∧ k < r) ∧
    (r % 2 = 1 → payloadSize r = r - 1) := by
  have hn := numSamples_eq r (by omega)
  have hp := payloadSize_eq r (by omega)
  have hR := READ_LEN_eq
  refine ⟨hn, ⟨by omega, by omega⟩, by omega, hp, by omega, by omega, ?_, ?_, by omega⟩
  · intro b
    rw [bufferObj_size]
    omega
  · intro k hk
    omega

/-- Witness for C10: an odd byte count. -/
theorem C10_payload_within_buffer_witness :
    numSamples 7 = ((7 / 2 : Nat) : Int) ∧
    (-2147483648 ≤ numSamples 7 ∧ numSamples 7 ≤ 2147483647) ∧
    numSamples 7 ≤ 51200 ∧
    payloadSize 7 = 2 * (7 / 2) ∧
    payloadSize 7 ≤ 7 ∧
    payloadSize 7 ≤ 102400 ∧
    (∀ b : Buffer, payloadSize 7 ≤ (bufferObj b).size) ∧
    (∀ k, k < payloadSize 7 → k / 2 < READ_LEN ∧ k < 7) ∧
    (7 % 2 = 1 → payloadSize 7 = 7 - 1) :=
  C10_payload_within_buffer 7 (by decide)

/-! ## Start-up text and the frame channel -/

theorem setup_serial : (setup powerOn).serial = bannerBytes := by decide

/-- C9, as stated, fails: `setup()` writes 14 bytes (`ADC I2S test`, CR, LF) to the
very `Serial` object that `loop()` writes frames to, so after `setup()` and a first
full-length iteration the output begins with `0x41 0x44` (`AD`), not `0xA5 0xA5`. -/
theorem C9_banner_precedes_first_frame :
    (setup powerOn).serial =
      [0x41, 0x44, 0x43, 0x20, 0x49, 0x32, 0x53, 0x20, 0x74, 0x65, 0x73, 0x74, 0x0D, 0x0A] ∧
    (runLoops [⟨fun _ => 0, 102400⟩] (setup powerOn)).map (fun st => st.serial.take 2) =
      some [0x41, 0x44] ∧
    (runLoops [⟨fun _ => 0, 102400⟩] (setup powerOn)).map (fun st => st.serial.take 2) ≠
      some [0xA5, 0xA5] := by
  have h1 : (setup powerOn).serial =
      [0x41, 0x44, 0x43, 0x20, 0x49, 0x32, 0x53, 0x20, 0x74, 0x65, 0x73, 0x74, 0x0D, 0x0A] := by
    decide
  have h2 : (runLoops [⟨fun _ => 0, 102400⟩] (setup powerOn)).map
      (fun st => st.serial.take 2) = some [0x41, 0x44] := by
    rw [runLoops, loop_eq ⟨fun _ => 0, 102400⟩ (setup powerOn) (Nat.le_refl _)]
    simp only [Option.some_bind, runLoops, Option.map_some', h1]
    rfl
  refine ⟨h1, h2, ?_⟩
  rw [h2]
  decide

/-- C9, amended: `setup()` writes the 14 bytes of `ADC I2S test` followed by CR LF to
the same serial output that `loop()` uses, and for every sequence of reads of at most
102400 bytes the output from power-on is exactly those 14 bytes (which begin
`0x41 0x44` and contain no `0xA5`) followed by the marker-prefixed frames, in order. -/
theorem C9_stream_is_banner_then_frames (rds : List I2sRead)
    (h : ∀ rd ∈ rds, rd.bytesRead ≤ 102400) :
    (setup powerOn).serial = bannerBytes ∧
    bannerBytes.length = 14 ∧
    bannerBytes.take 2 = [0x41, 0x44] ∧
    (∀ x ∈ bannerBytes, x ≠ 0xA5) ∧
    ∃ st, runLoops rds (setup powerOn) = some st ∧
      st.serial = bannerBytes ++ rds.flatMap (fun rd =>
        [0xA5, 0xA5] ++ ((samplesOf rd.buffer).take (rd.bytesRead / 2)).flatMap leBytes) := by
  obtain ⟨st, h1, h2⟩ := runLoops_serial rds (setup powerOn) h
  refine ⟨setup_serial, by decide, by decide, by decide, st, h1, ?_⟩
  rw [h2, setup_serial]
  rfl

/-- Witness for C9 (amended): one read of four bytes after `setup()`. -/
theorem C9_stream_is_banner_then_frames_witness :
    (setup powerOn).serial = bannerBytes ∧
    bannerBytes.length = 14 ∧
    bannerBytes.take 2 = [0x41, 0x44] ∧
    (∀ x ∈ bannerBytes, x ≠ 0xA5) ∧
    ∃ st, runLoops [⟨fun _ => 0x0301, 4⟩] (setup powerOn) = some st ∧
      st.serial = bannerBytes ++ [(⟨fun _ => 0x0301, 4⟩ : I2sRead)].flatMap (fun rd =>
        [0xA5, 0xA5] ++ ((samplesOf rd.buffer).take (rd.bytesRead / 2)).flatMap leBytes) :=
  C9_stream_is_banner_then_frames [⟨fun _ => 0x0301, 4⟩] (by
    intro rd hrd
    rw [List.mem_singleton] at hrd
    subst hrd
    decide)

/-! ## Round trip through the receiver -/

theorem fullRead_bytesRead (b : Buffer) : (fullRead b).bytesRead = 102400 := i2s_read_size_eq

theorem frameOf_fullRead (b : Buffer) :
    frameOf (fullRead b) = 0xA5 :: 0xA5 :: (samplesOf b).flatMap leBytes := by
  have htake : (samplesOf b).take ((fullRead b).bytesRead / 2) = samplesOf b :=
    List.take_of_length_le (by
      have h1 := samplesOf_length b
      have h2 := READ_LEN_eq
      have h3 := fullRead_bytesRead b
      omega)
  show syncMarker ++ ((samplesOf b).take ((fullRead b).bytesRead / 2)).flatMap leBytes = _
  rw [htake]
  simp only [syncMarker, List.cons_append, List.nil_append]

theorem toSamples_flatMap (l : List Sample) :
    toSamples (l.flatMap leBytes) = l.map Fin.val := by
  induction l with
  | nil => rfl
  | cons a l ih =>
    have e : a.val % 256 + 256 * (a.val / 256) = a.val := Nat.mod_add_div _ _
    rw [List.flatMap_cons, List.map_cons, ← ih, ← e]
    rfl

theorem wireOf_cons (rd : I2sRead) (rds : List I2sRead) :
    wireOf (rd :: rds) = frameOf rd ++ wireOf rds := by
  simp [wireOf]

theorem wireOf_length_ge (rds : List I2sRead) : rds.length ≤ (wireOf rds).length := by
  induction rds with
  | nil => exact Nat.le_refl _
  | cons rd rds ih =>
    rw [wireOf_cons, List.length_append, frameOf, List.length_append, List.length_cons]
    have : syncMarker.length = 2 := rfl
    omega

theorem findMarker_head (l : List Nat) : findMarker (0xA5 :: 0xA5 :: l) = some 0 := by
  simp [findMarker]

theorem decodeFuel_wire (frames : List Buffer) (fuel : Nat) (h : frames.length ≤ fuel) :
    decodeFuel READ_LEN fuel (wireOf (frames.map fullRead)) =
      frames.map (fun b => (samplesOf b).map Fin.val) := by
  induction frames generalizing fuel with
  | nil =>
    cases fuel with
    | zero => rfl
    | succ f => rfl
  | cons b frames ih =>
    cases fuel with
    | zero => exact absurd h (by simp)
    | succ f =>
      have hf : frames.length ≤ f := Nat.le_of_succ_le_succ h
      have hlen : ((samplesOf b).flatMap leBytes).length = 2 * READ_LEN := by
        rw [flatMap_leBytes_length, samplesOf_length]
      have hnot : ¬ ((samplesOf b).flatMap leBytes ++ wireOf (frames.map fullRead)).length
          < 2 * READ_LEN := by
        rw [List.length_append, hlen]
        omega
      rw [List.map_cons, wireOf_cons, frameOf_fullRead, List.cons_append, List.cons_append,
        decodeFuel, findMarker_head]
      simp only [Nat.zero_add, List.drop_succ_cons, List.drop_zero, hnot, if_false]
      rw [List.take_left' hlen, List.drop_left' hlen, toSamples_flatMap, ih f hf, List.map_cons]

/-- C3: for every finite sequence of full frames (each the 51200 samples of the
buffer, sent by an iteration of `loop()` whose read returned the full 102400 bytes),
the iterations return, and the decoder that repeatedly scans forward for the next
`0xA5 0xA5` and reads the following `2 * 51200` bytes as 51200 low-byte-first samples,
applied to the bytes those iterations emitted, returns exactly the original frames,
sample for sample. The decoder starts each scan at a frame boundary, so no payload
value is ever examined as a marker. -/
theorem C3_decode_recovers_frames (frames : List Buffer) (s : State) :
    ∃ st, runLoops (frames.map fullRead) s = some st ∧
      decode READ_LEN (emitted s st) = frames.map (fun b => (samplesOf b).map Fin.val) := by
  obtain ⟨st, h1, h2⟩ := runLoops_serial (frames.map fullRead) s (by
    intro rd hrd
    obtain ⟨b, _, rfl⟩ := List.mem_map.mp hrd
    exact Nat.le_of_eq (fullRead_bytesRead b))
  refine ⟨st, h1, ?_⟩
  have he : emitted s st = wireOf (frames.map fullRead) := by
    rw [emitted, h2, List.drop_left]
  rw [he, decode]
  apply decodeFuel_wire
  have := wireOf_length_ge (frames.map fullRead)
  rw [List.length_map] at this
  exact this

/-! ## Marker occurrences in the stream -/

/-- Two reads that return no bytes: the output is `0xA5 0xA5 0xA5 0xA5`, the
iterations began at offsets 0 and 2, and the marker pattern also occurs at offset 1
(second byte of the first marker, first byte of the second). -/
theorem empty_reads_marker_pair :
    (runLoops [⟨fun _ => 0, 0⟩, ⟨fun _ => 0, 0⟩] powerOn).map (fun st => emitted powerOn st) =
      some [0xA5, 0xA5, 0xA5, 0xA5] ∧
    markerPositions [⟨fun _ => 0, 0⟩, ⟨fun _ => 0, 0⟩] powerOn = [0, 2] ∧
    ¬ tailClean (sentSamples ⟨fun _ => 0, 0⟩) := by
  have h0 : ∀ s : State, loop ⟨fun _ => 0, 0⟩ s = some
      { buffer := fun _ => 0
        serial := s.serial ++ [0xA5, 0xA5]
        calls := s.calls ++ [.i2s_read I2S_NUM i2s_read_size, .Serial_write 2,
          .Serial_write 0] } := by
    intro s
    rw [loop_eq ⟨fun _ => 0, 0⟩ s (Nat.zero_le _)]
    simp [syncMarker, readBytes]
  refine ⟨?_, ?_, ?_⟩
  · simp [runLoops, h0, emitted, powerOn]
  · simp [markerPositions, h0, powerOn]
  · simp [tailClean, sentSamples]

end Oscyloskop
